import Mathlib

/-!
Shallow embedding of `tdparser` (src/tdparser/topdown.py): the token data
model, the Pratt parser engine (`Parser.__init__`, `_forward`, `consume`,
`expression`, `parse`) and the lexer (`Lexer._get_token`, `Lexer.lex`,
`Lexer.parse`).

Conventions of the embedding:
- Python text is `List Char`; a compiled regular expression is abstracted as
  an anchored matcher `List Char → Option Nat` returning the end offset of
  the match at the start of the text (`re.match` semantics: `match.start()`
  is `0`, the value is `match.end()`).
- Python in-place mutation of the `Parser` object is explicit state passing;
  a raised exception carries the state at raise time (`PRes.err e p`), since
  a Python exception leaves the mutations already performed in place.
- The user-defined token classes are abstracted by a `Grammar`: a left
  binding power per token kind and arbitrary `nud`/`led` behaviours, which
  receive and return parser states exactly as the Python methods receive
  the mutable parser.
- Generators (`Lexer.lex`) and the unbounded `while` loops are modelled with
  explicit fuel; `none` / `PRes.more` means the computation has not finished
  within the given fuel, so nontermination of the source is `none` at every
  fuel.
-/

/-- Errors raised by the source: `ValueError` (plain Python builtin) and
`ParserSyntaxError` (subclass of `ParserError`). `ParserError` itself is
never raised directly. -/
inductive PyError where
  | valueError (msg : String)
  | syntaxError (msg : String)
deriving DecidableEq

/-- Discriminator: is this error a `ParserSyntaxError` (as opposed to a plain
`ValueError`)? -/
def PyError.isSyntax : PyError → Bool
  | .syntaxError _ => true
  | .valueError _ => false

/-- A token instance: its kind (the Python token class) and the matched text
(`Token.__init__` stores `self.text = text`). -/
structure Tok (ι : Type) where
  kind : ι
  text : List Char
deriving DecidableEq

/-- State of a `Parser` object: the not-yet-consumed remainder of the token
iterator (`self.tokens`), `self.current_pos` and `self.current_token`. -/
structure Parser (ι : Type) where
  tokens : List (Tok ι)
  current_pos : Nat
  current_token : Tok ι
deriving DecidableEq

/-- Result of running a parser method on a parser state: normal return with
the updated state, an exception carrying the state at raise time, or `more`
when the method has not finished within the available fuel. -/
inductive PRes (ι : Type) (α : Type) where
  | ok (a : α) (p : Parser ι)
  | err (e : PyError) (p : Parser ι)
  | more
deriving DecidableEq

/-- The per-token-class behaviour supplied by the embedding application:
`lbp` (class attribute, default `0`), `nud(self, context)` and
`led(self, left, context)`.  `nud`/`led` receive the parser state and may
transform it arbitrarily (in the source they receive the mutable parser
object and may call back into it). -/
structure Grammar (ι : Type) (R : Type) where
  lbp : ι → Int
  nud : Tok ι → Parser ι → PRes ι R
  led : Tok ι → R → Parser ι → PRes ι R

/-- `Parser.__init__(self, tokens)`: pulls the first token as the lookahead;
an exhausted iterator raises `ValueError("No tokens provided.")` (before
that, `current_pos` is set to `0`). -/
def Parser.init {ι : Type} (ts : List (Tok ι)) : Except PyError (Parser ι) :=
  match ts with
  | [] => .error (.valueError "No tokens provided.")
  | t :: rest => .ok { tokens := rest, current_pos := 0, current_token := t }

/-- `Parser._forward(self)`: pull the next token into `current_token`, then
increment `current_pos`; on `StopIteration` raise a `ParserSyntaxError`
before any of those two assignments happen. -/
def Parser._forward {ι : Type} (p : Parser ι) : PRes ι Unit :=
  match p.tokens with
  | [] =>
      .err (.syntaxError ("Unexpected end of token stream at " ++
        toString p.current_pos ++ ".")) p
  | t :: rest =>
      .ok () { tokens := rest, current_pos := p.current_pos + 1, current_token := t }

/-- Shared tail of `Parser.consume`: save `current_token`, `_forward`, return
the saved token. -/
def Parser.consumeGo {ι : Type} (p : Parser ι) : PRes ι (Tok ι) :=
  match Parser._forward p with
  | .ok _ q => .ok p.current_token q
  | .err e q => .err e q
  | .more => .more

/-- `Parser.consume(self, expect_class=None)`: when an expected class is given
and the current token is not an instance of it, raise a `ParserSyntaxError`
(before any state change); otherwise return the current token and advance.
The `isinstance` test against a token class is abstracted as a predicate on
token kinds. -/
def Parser.consume {ι : Type} (expect : Option (ι → Bool)) (p : Parser ι) :
    PRes ι (Tok ι) :=
  match expect with
  | some cls =>
      if cls p.current_token.kind then Parser.consumeGo p
      else .err (.syntaxError ("Unexpected token at " ++ toString p.current_pos)) p
  | none => Parser.consumeGo p

/-- The `while rbp < self.current_token.lbp` loop of `Parser.expression`:
each iteration consumes the lookahead and feeds it to `led`.  `fuel` bounds
the number of iterations; running out yields `PRes.more`. -/
def Parser.exprLoop {ι R : Type} (G : Grammar ι R) :
    Nat → Int → R → Parser ι → PRes ι R
  | 0, rbp, left, p =>
    if rbp < G.lbp p.current_token.kind then .more else .ok left p
  | fuel + 1, rbp, left, p =>
    if rbp < G.lbp p.current_token.kind then
      match Parser.consume none p with
      | .ok t1 p1 =>
        match G.led t1 left p1 with
        | .ok left2 p2 => Parser.exprLoop G fuel rbp left2 p2
        | .err e q => .err e q
        | .more => .more
      | .err e q => .err e q
      | .more => .more
    else .ok left p

/-- `Parser.expression(self, rbp=0)`: consume one token, take its `nud` as the
initial `left`, then run the `led` loop while the lookahead binds tighter
than `rbp`. -/
def Parser.expression {ι R : Type} (G : Grammar ι R) (fuel : Nat) (rbp : Int)
    (p : Parser ι) : PRes ι R :=
  match Parser.consume none p with
  | .ok t0 p1 =>
    match G.nud t0 p1 with
    | .ok left p2 => Parser.exprLoop G fuel rbp left p2
    | .err e q => .err e q
    | .more => .more
  | .err e q => .err e q
  | .more => .more

/-- `Parser.parse(self)`: `return self.expression()`, i.e. `expression` at the
default right binding power `0`. -/
def Parser.parse {ι R : Type} (G : Grammar ι R) (fuel : Nat) (p : Parser ι) :
    PRes ι R :=
  Parser.expression G fuel 0 p

/-- State of a `Lexer` object: the registered `(token_class, regexp)` list
(`self.tokens`) and `self.blank_chars`. -/
structure Lexer (ι : Type) where
  tokens : List (ι × (List Char → Option Nat))
  blank_chars : List Char

/-- `Lexer.register_token(self, token_class, regexp)`: append the pair. -/
def Lexer.register_token {ι : Type} (L : Lexer ι) (k : ι)
    (m : List Char → Option Nat) : Lexer ι :=
  { L with tokens := L.tokens ++ [(k, m)] }

/-- Loop body of `Lexer._get_token`: first registered pattern whose anchored
match succeeds wins; the returned `Nat` is `match.end()`. -/
def getTokenFrom {ι : Type} :
    List (ι × (List Char → Option Nat)) → List Char → Option (ι × Nat)
  | [], _ => none
  | (k, m) :: rest, text =>
    match m text with
    | some e => some (k, e)
    | none => getTokenFrom rest text

/-- `Lexer._get_token(self, text)`: iterate over `self.tokens` in registration
order and return the first `(kind, match)` whose regexp matches at the start
of `text`; `(None, None)` when none matches. -/
def Lexer._get_token {ι : Type} (L : Lexer ι) (text : List Char) :
    Option (ι × Nat) :=
  getTokenFrom L.tokens text

/-- The token yielded for `EndToken()`: kind `none`, text `''`. -/
def endTok {ι : Type} : Tok (Option ι) := ⟨none, []⟩

/-- The sequence produced by one run of the `Lexer.lex` generator: the tokens
yielded in order, terminated either normally (`done`, the last yielded token
being `EndToken()`) or by the `ValueError` raised on an invalid character,
which carries `text[0]` and the remaining text. -/
inductive LexOutcome (ι : Type) where
  | done (toks : List (Tok (Option ι)))
  | failed (toks : List (Tok (Option ι))) (c : Char) (rest : List Char)
deriving DecidableEq

/-- Prepend one yielded token to the rest of a lex run. -/
def LexOutcome.cons {ι : Type} (t : Tok (Option ι)) :
    LexOutcome ι → LexOutcome ι
  | .done toks => .done (t :: toks)
  | .failed toks c rest => .failed (t :: toks) c rest

/-- `Lexer.lex(self, text)`: while text remains, ask `_get_token`; on a match
yield `token_class(text[match.start():match.end()])` and advance past
`match.end()`; otherwise skip a leading blank character, or raise
`ValueError` on an invalid character.  When the text is exhausted, yield
exactly one `EndToken()`.  `fuel` bounds the number of loop iterations
(`none` = still running at this fuel). -/
def Lexer.lexFuel {ι : Type} (L : Lexer ι) (fuel : Nat) (text : List Char) :
    Option (LexOutcome ι) :=
  match text with
  | [] => some (.done [endTok])
  | c :: rest =>
    match fuel with
    | 0 => none
    | fuel' + 1 =>
      match L._get_token (c :: rest) with
      | some (k, e) =>
        (Lexer.lexFuel L fuel' ((c :: rest).drop e)).map
          (LexOutcome.cons ⟨some k, (c :: rest).take e⟩)
      | none =>
        if c ∈ L.blank_chars then Lexer.lexFuel L fuel' rest
        else some (.failed [] c (c :: rest))

/-- `Lexer.parse(self, text)`: lex, build a `Parser` on the token sequence,
and run `parser.parse()`.  (The generator is modelled as the eagerly
materialised token list.) -/
def Lexer.parseText {ι R : Type} (L : Lexer ι) (G : Grammar (Option ι) R)
    (fuel : Nat) (text : List Char) : Option (Except PyError R) :=
  match L.lexFuel fuel text with
  | none => none
  | some (.failed _ c rest) =>
      some (.error (.valueError ("Invalid character " ++ String.mk [c] ++
        " in " ++ String.mk rest)))
  | some (.done toks) =>
    match Parser.init toks with
    | .error e => some (.error e)
    | .ok p =>
      match Parser.parse G fuel p with
      | .ok v _ => some (.ok v)
      | .err e _ => some (.error e)
      | .more => none

/-- Modelled from the spec: `TokenRegistry.matching_tokens(text)` of the
`tdparser.lexer` module, which is missing from the sources (only its tests,
`tests/test_lexer.py`, are present): the `(token_type, match)` pairs of every
registered pattern that matches at the start of `text`, in registration
order. -/
def TokenRegistry.matching_tokens {ι : Type} :
    List (ι × (List Char → Option Nat)) → List Char → List (ι × Nat)
  | [], _ => []
  | (k, m) :: rest, text =>
    match m text with
    | some e => (k, e) :: TokenRegistry.matching_tokens rest text
    | none => TokenRegistry.matching_tokens rest text

/-- Modelled from the spec: the selection rule of `TokenRegistry.get_token` —
among the anchored matches in registration order, the strictly longest later
entry displaces an earlier one, so the earliest of the longest wins. -/
def bestMatch {ι : Type} : List (ι × Nat) → Option (ι × Nat)
  | [] => none
  | (k, e) :: rest =>
    match bestMatch rest with
    | none => some (k, e)
    | some (k2, e2) => if e2 > e then some (k2, e2) else some (k, e)

/-- Modelled from the spec: `TokenRegistry.get_token(text)` of the
`tdparser.lexer` module, which is missing from the sources (only its tests,
`tests/test_lexer.py::test_longest_match` and
`test_get_token_multiple_inverted`, are present): `(None, None)` on empty
text, otherwise the entry whose matched text is longest, ties resolved in
favour of the earliest-registered entry, `(None, None)` when nothing
matches. -/
def TokenRegistry.get_token {ι : Type} (tokens : List (ι × (List Char → Option Nat)))
    (text : List Char) : Option (ι × Nat) :=
  match text with
  | [] => none
  | _ :: _ => bestMatch (TokenRegistry.matching_tokens tokens text)

/-- Anchored matcher of the regular expression for a literal string `w`:
matches iff `w` is a prefix of the text, with `match.end() = len(w)`. -/
def litMatcher (w : List Char) (text : List Char) : Option Nat :=
  if text.take w.length = w then some w.length else none

/-- Token kinds for the two-pattern registries of the longest-match tests. -/
inductive K2 where
  | A
  | B
deriving DecidableEq

/-- The registry of spec §4.1 and `tests/test_lexer.py::test_longest_match`:
pattern `a` for `A` registered first, then pattern `aa` for `B` (default
blank characters). -/
def lexAB : Lexer K2 :=
  ⟨[(K2.A, litMatcher ['a']), (K2.B, litMatcher ['a', 'a'])], [' ', '\t']⟩

/-- Token kinds for the three-pattern tie-break registry. -/
inductive K3 where
  | C
  | A
  | B
deriving DecidableEq

/-- A registry with a short early pattern and two equal-length longer ones:
`a` for `C`, then `ab` for `A`, then `ab` for `B`. -/
def lexCAB : Lexer K3 :=
  ⟨[(K3.C, litMatcher ['a']), (K3.A, litMatcher ['a', 'b']),
    (K3.B, litMatcher ['a', 'b'])], [' ', '\t']⟩

/-- A registry registering pattern `a` for `A` before pattern `ab` for `B`
(default blank characters). -/
def lexA_AB : Lexer K2 :=
  ⟨[(K2.A, litMatcher ['a']), (K2.B, litMatcher ['a', 'b'])], [' ', '\t']⟩

/-- A registry whose single pattern can match the empty string, as
`re.compile(r'a*')` or `re.compile(r'')` do: the anchored match always
succeeds with `match.end() = 0` on any text not starting with `a`. -/
def lexZero : Lexer Unit :=
  ⟨[(Unit.unit, fun _ => some 0)], [' ', '\t']⟩

/-- Termination of one `Lexer.lex` run: some amount of fuel makes the
generator reach the end sentinel or the invalid-character error. -/
def LexTerminates {ι : Type} (L : Lexer ι) (text : List Char) : Prop :=
  ∃ fuel, (L.lexFuel fuel text).isSome = true

/-- The reconstruction relation of the spec: the text is the non-sentinel
tokens' matched texts in yield order, with the skipped blank characters
restored in position. -/
inductive Reconstructs {ι : Type} (blanks : List Char) :
    List (Tok (Option ι)) → List Char → Prop where
  | nil : Reconstructs blanks [] []
  | blank (c : Char) (toks : List (Tok (Option ι))) (text : List Char) :
      c ∈ blanks → Reconstructs blanks toks text →
      Reconstructs blanks toks (c :: text)
  | tok (k : ι) (w : List Char) (toks : List (Tok (Option ι))) (text : List Char) :
      Reconstructs blanks toks text →
      Reconstructs blanks (⟨some k, w⟩ :: toks) (w ++ text)

/-- The premise of the reconstruction claim: the text consists only of
substrings each fully matched by some registered pattern, and of blank
characters. -/
inductive ComposedOf {ι : Type} (L : Lexer ι) : List Char → Prop where
  | nil : ComposedOf L []
  | blank (c : Char) (rest : List Char) : c ∈ L.blank_chars →
      ComposedOf L rest → ComposedOf L (c :: rest)
  | piece (w rest : List Char) (p : ι × (List Char → Option Nat)) :
      p ∈ L.tokens → p.2 w = some w.length →
      ComposedOf L rest → ComposedOf L (w ++ rest)

/-- Transcript of the `while rbp < self.current_token.lbp` loop of
`Parser.expression`: from accumulated value `left` in state `p`, one `led`
step is taken exactly while the lookahead's left binding power strictly
exceeds `rbp`, and the loop stops with the accumulated value as soon as it
does not. -/
inductive LedSteps {ι R : Type} (G : Grammar ι R) (rbp : Int) :
    R → Parser ι → R → Parser ι → Prop where
  | done (left : R) (p : Parser ι) :
      G.lbp p.current_token.kind ≤ rbp → LedSteps G rbp left p left p
  | step (left : R) (p : Parser ι) (t1 : Tok ι) (p1 : Parser ι) (left2 : R)
      (p2 : Parser ι) (v : R) (q : Parser ι) :
      rbp < G.lbp p.current_token.kind →
      Parser.consume none p = .ok t1 p1 →
      G.led t1 left p1 = .ok left2 p2 →
      LedSteps G rbp left2 p2 v q →
      LedSteps G rbp left p v q

/-- Token kinds of a small concrete grammar: a literal-like token whose `nud`
returns `1`, a `plus`-like infix token with left binding power `10` whose
`led` returns `left + 1`, and the end sentinel with binding power `0` whose
`nud`/`led` raise, as `EndToken` does. -/
inductive AK where
  | lit
  | plus
  | endk
deriving DecidableEq

/-- The concrete grammar over `AK`. -/
def AG : Grammar AK Int where
  lbp := fun k => match k with | .plus => 10 | _ => 0
  nud := fun t p =>
    match t.kind with
    | .lit => .ok 1 p
    | .plus => .err (.syntaxError "Unexpected token at the left of an expression") p
    | .endk => .err (.syntaxError "Empty token flow.") p
  led := fun t left p =>
    match t.kind with
    | .plus => .ok (left + 1) p
    | .lit => .err (.syntaxError "Unexpected token in the middle of an expression") p
    | .endk => .err (.syntaxError "Unfinished token flow.") p

/-- Parser state just after `Parser.__init__` on the token sequence
`[lit '1', plus '+', lit '2', end]`. -/
def P2 : Parser AK :=
  ⟨[⟨AK.plus, ['+']⟩, ⟨AK.lit, ['2']⟩, ⟨AK.endk, []⟩], 0, ⟨AK.lit, ['1']⟩⟩

/-- Parser state at which `expression 0` on `P2` returns: the `plus` was
consumed and evaluated, the lookahead is the second literal. -/
def Q2 : Parser AK := ⟨[⟨AK.endk, []⟩], 2, ⟨AK.lit, ['2']⟩⟩

/-- Parser state just after `Parser.__init__` on the token sequence
`[lit '1', lit '2', end]`: a complete expression (`lit '1'`) followed by a
trailing non-sentinel token with binding power `0`. -/
def P8 : Parser AK :=
  ⟨[⟨AK.lit, ['2']⟩, ⟨AK.endk, []⟩], 0, ⟨AK.lit, ['1']⟩⟩

/-- Parser state at which `expression 0` on `P8` returns: the trailing
`lit '2'` is the unconsumed lookahead and the sentinel is still pending. -/
def Q8 : Parser AK := ⟨[⟨AK.endk, []⟩], 1, ⟨AK.lit, ['2']⟩⟩

/-- A parser state whose underlying token sequence is exhausted. -/
def P10 : Parser AK := ⟨[], 0, ⟨AK.lit, ['1']⟩⟩

/-- A call against a `Lexer` object: `lex(text)` or `parse(text)`. -/
inductive LexCall where
  | lexC (text : List Char)
  | parseC (text : List Char)

/-- The value returned by one such call. -/
inductive CallResult (ι : Type) (R : Type) where
  | lexR (r : Option (LexOutcome ι))
  | parseR (r : Option (Except PyError R))

/-- One method call against a `Lexer` object, with the lexer state threaded
through: the bodies of `lex` and `parse` read `self.tokens` and
`self.blank_chars` and assign no attribute of `self`, so the lexer state
coming out of the call is the state that went in. -/
def Lexer.runCall {ι R : Type} (L : Lexer ι) (G : Grammar (Option ι) R)
    (fuel : Nat) : LexCall → CallResult ι R × Lexer ι
  | .lexC t => (.lexR (L.lexFuel fuel t), L)
  | .parseC t => (.parseR (L.parseText G fuel t), L)

/-- A sequence of `lex`/`parse` calls against the same `Lexer` object, each
call starting from the lexer state the previous call left behind. -/
def Lexer.runCalls {ι R : Type} (L : Lexer ι) (G : Grammar (Option ι) R)
    (fuel : Nat) : List LexCall → List (CallResult ι R) × Lexer ι
  | [] => ([], L)
  | c :: cs =>
    ((Lexer.runCall L G fuel c).1 ::
      (Lexer.runCalls (Lexer.runCall L G fuel c).2 G fuel cs).1,
     (Lexer.runCalls (Lexer.runCall L G fuel c).2 G fuel cs).2)

/-! Helper lemmas. -/

/-- A successful `_get_token` lookup comes from some registered matcher. -/
theorem getTokenFrom_mem {ι : Type} :
    ∀ (toks : List (ι × (List Char → Option Nat))) (text : List Char)
      (k : ι) (e : Nat),
    getTokenFrom toks text = some (k, e) →
    ∃ m, (k, m) ∈ toks ∧ m text = some e := by
  intro toks
  induction toks with
  | nil => intro text k e h; simp [getTokenFrom] at h
  | cons p rest ih =>
    intro text k e h
    obtain ⟨k0, m0⟩ := p
    simp only [getTokenFrom] at h
    cases hm : m0 text with
    | some e0 =>
      rw [hm] at h
      rw [Option.some.injEq, Prod.mk.injEq] at h
      obtain ⟨hk, he⟩ := h
      subst hk; subst he
      exact ⟨m0, List.mem_cons_self _ _, hm⟩
    | none =>
      rw [hm] at h
      obtain ⟨m, hmem, hme⟩ := ih text k e h
      exact ⟨m, List.mem_cons_of_mem _ hmem, hme⟩

/-- A literal-string matcher can only report the length of its literal. -/
theorem litMatcher_len (w t : List Char) (e : Nat)
    (h : litMatcher w t = some e) : e = w.length := by
  unfold litMatcher at h
  split at h
  · exact (Option.some.inj h).symm
  · exact absurd h (by simp)

/-- Both registered matchers of `lexAB` only produce positive-length
matches. -/
theorem lexAB_pos : ∀ p ∈ lexAB.tokens, ∀ t e, p.2 t = some e → 0 < e := by
  intro p hp t e h
  rcases List.mem_cons.mp hp with h1 | h1
  · subst h1
    rw [litMatcher_len _ _ _ h]
    decide
  · rcases List.mem_cons.mp h1 with h2 | h2
    · subst h2
      rw [litMatcher_len _ _ _ h]
      decide
    · simp at h2

/-! Claim theorems. -/

/-- C1: the claim says the token lookup returns the entry with the longest
anchored match, so that with `a` registered for `A` before `aa` for `B`, the
lookup on `"aaa"` returns `B` with match length 2.  The source's
`Lexer._get_token` instead returns the first registered entry that matches at
all: on `"aaa"` it returns `A` with match length 1.  The spec-modelled
`TokenRegistry.get_token` (the behaviour the repository's own tests demand)
does return `B` with match length 2. -/
theorem C1_get_token_first_match_not_longest :
    lexAB._get_token ['a', 'a', 'a'] = some (K2.A, 1) ∧
    TokenRegistry.get_token lexAB.tokens ['a', 'a', 'a'] = some (K2.B, 2) := by
  constructor
  · decide
  · decide

/-- C5: the claim says registration order is used only to break ties between
equal-length maximal matches, the earliest-registered entry winning such
ties.  On the registry `a ↦ C`, `ab ↦ A`, `ab ↦ B` and text `"ab"`, the
maximal match length 2 is achieved by `A` and `B` with `A` registered
earlier, so the claim requires `A`; the source's `Lexer._get_token` returns
`C` (the first registered entry that matches at all, length 1), using
registration order as absolute priority rather than as a tie-break.  The
spec-modelled `TokenRegistry.get_token` does return `A` with length 2. -/
theorem C5_order_is_priority_not_tiebreak :
    lexCAB._get_token ['a', 'b'] = some (K3.C, 1) ∧
    TokenRegistry.get_token lexCAB.tokens ['a', 'b'] = some (K3.A, 2) := by
  constructor
  · decide
  · decide

/-- C6: constructing a `Parser` from a token sequence that yields no tokens
raises `ValueError("No tokens provided.")`, which is not a
`ParserSyntaxError`; lexing an empty string never takes this path, since it
always yields at least the end sentinel. -/
theorem C6_empty_sequence_value_error :
    (∀ (ι : Type), Parser.init ([] : List (Tok ι)) =
      Except.error (PyError.valueError "No tokens provided.")) ∧
    PyError.isSyntax (PyError.valueError "No tokens provided.") = false ∧
    (∀ (ι : Type) (L : Lexer ι) (fuel : Nat),
      L.lexFuel fuel [] = some (LexOutcome.done [endTok])) := by
  refine ⟨fun ι => rfl, rfl, fun ι L fuel => ?_⟩
  cases fuel <;> rfl

/-- C8: `Parser.parse()` is `expression(0)` with no check that the sentinel
was reached: when `expression(0)` completes with result `v` in state `q`
whose lookahead (the leading trailing token) has left binding power `0`,
`parse()` returns `v` without raising, ignoring the unconsumed trailing
tokens. -/
theorem C8_parse_ignores_trailing_tokens :
    ∀ (ι R : Type) (G : Grammar ι R) (fuel : Nat) (p : Parser ι) (v : R)
      (q : Parser ι),
    Parser.expression G fuel 0 p = .ok v q →
    G.lbp q.current_token.kind = 0 →
    Parser.parse G fuel p = .ok v q :=
  fun _ _ _ _ _ _ _ h _ => h

/-- C8 witness: on the token sequence `[lit '1', lit '2', end]`, `expression 0`
returns `1` leaving the non-sentinel `lit '2'` (binding power 0) and the
sentinel unconsumed, and `parse()` returns `1` without raising. -/
theorem C8_witness :
    Parser.expression AG 1 0 P8 = .ok 1 Q8 ∧
    AG.lbp Q8.current_token.kind = 0 ∧
    Parser.parse AG 1 P8 = .ok 1 Q8 :=
  ⟨rfl, rfl, C8_parse_ignores_trailing_tokens AK Int AG 1 P8 1 Q8 rfl rfl⟩

/-- A failing `_forward` leaves the parser state untouched: `StopIteration`
is raised by `next` before `current_token` is assigned or `current_pos` is
incremented. -/
theorem forward_err_frame {ι : Type} (p q : Parser ι) (e : PyError)
    (h : Parser._forward p = .err e q) : q = p := by
  unfold Parser._forward at h
  cases htoks : p.tokens with
  | nil =>
    rw [htoks] at h
    rw [PRes.err.injEq] at h
    exact h.2.symm
  | cons t rest =>
    rw [htoks] at h
    exact absurd h (by simp)

/-- A failing `consume` (with or without an expected class) leaves the parser
state untouched. -/
theorem consume_err_frame {ι : Type} (expect : Option (ι → Bool))
    (p q : Parser ι) (e : PyError)
    (h : Parser.consume expect p = .err e q) : q = p := by
  have go : ∀ (e2 : PyError), Parser.consumeGo p = .err e2 q → q = p := by
    intro e2 hgo
    unfold Parser.consumeGo at hgo
    cases hf : Parser._forward p with
    | ok u q2 => rw [hf] at hgo; exact absurd hgo (by simp)
    | err e3 q2 =>
      rw [hf] at hgo
      rw [PRes.err.injEq] at hgo
      rw [← hgo.2]
      exact forward_err_frame p q2 e3 hf
    | more => rw [hf] at hgo; exact absurd hgo (by simp)
  cases expect with
  | none =>
    simp only [Parser.consume] at h
    exact go e h
  | some cls =>
    simp only [Parser.consume] at h
    split at h
    · exact go e h
    · rw [PRes.err.injEq] at h
      exact h.2.symm

/-- C10: when `Parser.consume(expect_class)` raises the expected-type-mismatch
syntax error, and likewise when advancing fails because the token sequence is
exhausted, the parser state at raise time equals the state before the call —
in particular `current_token` and `current_pos` are unchanged. -/
theorem C10_failed_advance_preserves_state :
    (∀ (ι : Type) (expect : Option (ι → Bool)) (p q : Parser ι) (e : PyError),
      Parser.consume expect p = .err e q → q = p) ∧
    (∀ (ι : Type) (p q : Parser ι) (e : PyError),
      Parser._forward p = .err e q → q = p) :=
  ⟨fun _ expect p q e h => consume_err_frame expect p q e h,
   fun _ p q e h => forward_err_frame p q e h⟩

/-- C10 witness: a mismatching expected class and an exhausted token sequence
both raise with the parser state unchanged on the concrete state `P10`. -/
theorem C10_witness :
    (Parser.consume (some (fun k => decide (k = AK.plus))) P10 =
      .err (.syntaxError "Unexpected token at 0") P10 ∧ P10 = P10) ∧
    (Parser._forward P10 =
      .err (.syntaxError "Unexpected end of token stream at 0.") P10 ∧
      P10 = P10) :=
  ⟨⟨rfl, C10_failed_advance_preserves_state.1 AK
      (some (fun k => decide (k = AK.plus))) P10 P10
      (.syntaxError "Unexpected token at 0") rfl⟩,
   ⟨rfl, C10_failed_advance_preserves_state.2 AK P10 P10
      (.syntaxError "Unexpected end of token stream at 0.") rfl⟩⟩

/-- C9: `lex` and `parse` read the lexer's registered-token list and
blank-character set but store nothing on the lexer, so a sequence of
interleaved `lex`/`parse` calls threaded through the same `Lexer` object
returns exactly the results of independent fresh calls, and leaves the lexer
identical. -/
theorem C9_lexer_state_not_mutated :
    ∀ (ι R : Type) (L : Lexer ι) (G : Grammar (Option ι) R) (fuel : Nat)
      (cs : List LexCall),
    Lexer.runCalls L G fuel cs =
      (cs.map (fun c => (Lexer.runCall L G fuel c).1), L) := by
  intro ι R L G fuel cs
  induction cs with
  | nil => rfl
  | cons c cs ih =>
    have hframe : (Lexer.runCall L G fuel c).2 = L := by
      cases c <;> rfl
    simp only [Lexer.runCalls, hframe, ih, List.map_cons]

/-- C3 (amended): whenever `Lexer.lex` completes without error, the yielded
sequence is the non-sentinel tokens followed by exactly one end sentinel, and
the non-sentinel token texts, with the skipped blank characters restored in
position, reconstruct the original input. -/
theorem C3_lex_done_reconstructs :
    ∀ (ι : Type) (L : Lexer ι) (fuel : Nat) (text : List Char)
      (toks : List (Tok (Option ι))),
    L.lexFuel fuel text = some (.done toks) →
    ∃ ts, toks = ts ++ [endTok] ∧ (∀ t ∈ ts, (Tok.kind t).isSome = true) ∧
      Reconstructs L.blank_chars ts text := by
  intro ι L fuel
  induction fuel with
  | zero =>
    intro text toks h
    cases text with
    | nil =>
      simp only [Lexer.lexFuel] at h
      rw [Option.some.injEq, LexOutcome.done.injEq] at h
      exact ⟨[], by simp [← h], by simp, Reconstructs.nil⟩
    | cons c rest => simp [Lexer.lexFuel] at h
  | succ n ih =>
    intro text toks h
    cases text with
    | nil =>
      simp only [Lexer.lexFuel] at h
      rw [Option.some.injEq, LexOutcome.done.injEq] at h
      exact ⟨[], by simp [← h], by simp, Reconstructs.nil⟩
    | cons c rest =>
      simp only [Lexer.lexFuel] at h
      cases hm : L._get_token (c :: rest) with
      | some ke =>
        obtain ⟨k, e⟩ := ke
        simp only [hm] at h
        rw [Option.map_eq_some'] at h
        obtain ⟨o, ho, hcons⟩ := h
        cases o with
        | done toks2 =>
          simp only [LexOutcome.cons] at hcons
          rw [LexOutcome.done.injEq] at hcons
          obtain ⟨ts2, hts2, hall, hrec⟩ := ih _ _ ho
          refine ⟨⟨some k, (c :: rest).take e⟩ :: ts2, ?_, ?_, ?_⟩
          · rw [← hcons, hts2]
            rfl
          · intro t ht
            rcases List.mem_cons.mp ht with h1 | h1
            · rw [h1]
              rfl
            · exact hall t h1
          · have hx := Reconstructs.tok k ((c :: rest).take e) ts2 _ hrec
            rwa [List.take_append_drop] at hx
        | failed toks2 c2 rest2 => simp [LexOutcome.cons] at hcons
      | none =>
        simp only [hm] at h
        by_cases hb : c ∈ L.blank_chars
        · rw [if_pos hb] at h
          obtain ⟨ts2, hts2, hall, hrec⟩ := ih _ _ h
          exact ⟨ts2, hts2, hall, Reconstructs.blank c _ _ hb hrec⟩
        · rw [if_neg hb] at h
          simp at h

/-- C3 witness: lexing `"a aa"` with `lexAB` succeeds, and the resulting
tokens `A "a"`, `A "a"`, `A "a"` followed by the single end sentinel
reconstruct the text with the blank restored. -/
theorem C3_witness :
    ∃ ts, [(⟨some K2.A, ['a']⟩ : Tok (Option K2)), ⟨some K2.A, ['a']⟩,
        ⟨some K2.A, ['a']⟩, endTok] = ts ++ [endTok] ∧
      (∀ t ∈ ts, (Tok.kind t).isSome = true) ∧
      Reconstructs lexAB.blank_chars ts ['a', ' ', 'a', 'a'] :=
  C3_lex_done_reconstructs K2 lexAB 10 ['a', ' ', 'a', 'a']
    [⟨some K2.A, ['a']⟩, ⟨some K2.A, ['a']⟩, ⟨some K2.A, ['a']⟩, endTok]
    (by decide)

/-- C3 counterexample: with `a ↦ A` registered before `ab ↦ B`, the text
`"ab"` consists of one substring fully matched by the registered pattern
`ab`, yet `lex` yields the token `A "a"` and then raises the
invalid-character error on `'b'`: the produced sequence contains no end
sentinel at all. -/
theorem C3_counterexample :
    ComposedOf lexA_AB ['a', 'b'] ∧
    lexA_AB.lexFuel 10 ['a', 'b'] =
      some (.failed [⟨some K2.A, ['a']⟩] 'b' ['b']) := by
  constructor
  · have hmem : (K2.B, litMatcher ['a', 'b']) ∈ lexA_AB.tokens :=
      List.mem_cons_of_mem _ (List.mem_cons_self _ _)
    have h : ComposedOf lexA_AB (['a', 'b'] ++ []) :=
      ComposedOf.piece ['a', 'b'] [] _ hmem (by decide) ComposedOf.nil
    simpa using h
  · decide

/-- C7: lexing fails exactly on an invalid character: (i) at a position where
no registered pattern matches and the next character is not a blank
character, `lex` raises at once, yielding no further tokens, with the error
carrying that character and the whole remaining text; (ii) conversely, every
failing run fails at such a position — no pattern matches the reported
remainder, the reported character is its head and is not blank — so `lex`
never fails in any other way. -/
theorem C7_invalid_character_error :
    (∀ (ι : Type) (L : Lexer ι) (fuel : Nat) (c : Char) (rest : List Char),
      L._get_token (c :: rest) = none → c ∉ L.blank_chars →
      L.lexFuel (fuel + 1) (c :: rest) = some (.failed [] c (c :: rest))) ∧
    (∀ (ι : Type) (L : Lexer ι) (fuel : Nat) (text : List Char)
      (toks : List (Tok (Option ι))) (c : Char) (rest : List Char),
      L.lexFuel fuel text = some (.failed toks c rest) →
      L._get_token rest = none ∧ rest.head? = some c ∧ c ∉ L.blank_chars) := by
  constructor
  · intro ι L fuel c rest hm hb
    simp only [Lexer.lexFuel, hm, if_neg hb]
  · intro ι L fuel
    induction fuel with
    | zero =>
      intro text toks c rest h
      cases text with
      | nil => simp [Lexer.lexFuel] at h
      | cons c0 r0 => simp [Lexer.lexFuel] at h
    | succ n ih =>
      intro text toks c rest h
      cases text with
      | nil => simp [Lexer.lexFuel] at h
      | cons c0 r0 =>
        simp only [Lexer.lexFuel] at h
        cases hm : L._get_token (c0 :: r0) with
        | some ke =>
          obtain ⟨k, e⟩ := ke
          simp only [hm] at h
          rw [Option.map_eq_some'] at h
          obtain ⟨o, ho, hcons⟩ := h
          cases o with
          | done toks2 => simp [LexOutcome.cons] at hcons
          | failed toks2 c2 rest2 =>
            simp only [LexOutcome.cons] at hcons
            rw [LexOutcome.failed.injEq] at hcons
            obtain ⟨h1, h2, h3⟩ := hcons
            subst h2
            subst h3
            exact ih _ _ _ _ ho
        | none =>
          simp only [hm] at h
          by_cases hb : c0 ∈ L.blank_chars
          · rw [if_pos hb] at h
            exact ih _ _ _ _ h
          · rw [if_neg hb] at h
            rw [Option.some.injEq, LexOutcome.failed.injEq] at h
            obtain ⟨h1, h2, h3⟩ := h
            subst h2
            subst h3
            exact ⟨hm, rfl, hb⟩

/-- C7 witness: on `lexAB` (patterns `a` and `aa`), direction (i) applied to
text `"b"` yields the invalid-character failure carrying `'b'` and `"b"`, and
direction (ii) applied to the failing run on `"ab"` (which fails after
yielding `A "a"`) recovers that no pattern matches `"b"`, whose head `'b'` is
not blank. -/
theorem C7_witness :
    lexAB.lexFuel 1 ['b'] = some (.failed [] 'b' ['b']) ∧
    (lexAB._get_token ['b'] = none ∧ (['b'].head? = some 'b') ∧
      'b' ∉ lexAB.blank_chars) :=
  ⟨C7_invalid_character_error.1 K2 lexAB 0 'b' [] (by decide) (by decide),
   C7_invalid_character_error.2 K2 lexAB 2 ['a', 'b'] [⟨some K2.A, ['a']⟩]
     'b' ['b'] (by decide)⟩

/-- On `lexZero` and text `"b"`, the lex generator is still running at every
fuel: the zero-length match consumes no input. -/
theorem lexZero_no_progress : ∀ fuel, lexZero.lexFuel fuel ['b'] = none := by
  intro fuel
  induction fuel with
  | zero => rfl
  | succ n ih =>
    have hm : lexZero._get_token ['b'] = some (Unit.unit, 0) := rfl
    simp only [Lexer.lexFuel, hm]
    simp [ih]

/-- On `lexZero` and text `"b"`, no fuel completes the run. -/
theorem lexZero_not_terminates : ¬ LexTerminates lexZero ['b'] := by
  rintro ⟨fuel, hf⟩
  rw [lexZero_no_progress fuel] at hf
  simp at hf

/-- C4 counterexample: a Lexer configuration whose registered pattern can
match the empty string (as `re.compile(r'a*')` or `re.compile(r'')` can) is
a configuration on which `lex` does not terminate: on `"b"` it yields
empty-text tokens forever, never reaching the sentinel or an error. -/
theorem C4_counterexample : LexTerminates lexZero ['b'] = False :=
  eq_false lexZero_not_terminates

/-- When every registered matcher only ever reports positive match lengths,
every loop iteration consumes at least one character, so any fuel beyond the
text length completes the run. -/
theorem lexFuel_pos_isSome {ι : Type} (L : Lexer ι)
    (hpos : ∀ p ∈ L.tokens, ∀ t e, p.2 t = some e → 0 < e) :
    ∀ (fuel : Nat) (text : List Char), text.length < fuel →
    (L.lexFuel fuel text).isSome = true := by
  intro fuel
  induction fuel with
  | zero => intro text h; exact absurd h (Nat.not_lt_zero _)
  | succ n ih =>
    intro text hlen
    cases text with
    | nil => rfl
    | cons c rest =>
      simp only [Lexer.lexFuel]
      cases hm : L._get_token (c :: rest) with
      | some ke =>
        obtain ⟨k, e⟩ := ke
        simp only [hm]
        obtain ⟨m, hmem, hme⟩ := getTokenFrom_mem _ _ _ _ hm
        have he : 0 < e := hpos (k, m) hmem _ _ hme
        have hd : ((c :: rest).drop e).length < n := by
          rw [List.length_drop]
          simp only [List.length_cons] at hlen ⊢
          omega
        have hrec := ih _ hd
        cases hx : L.lexFuel n ((c :: rest).drop e) with
        | none => rw [hx] at hrec; simp at hrec
        | some o => rfl
      | none =>
        simp only [hm]
        by_cases hb : c ∈ L.blank_chars
        · rw [if_pos hb]
          exact ih rest (by simp only [List.length_cons] at hlen; omega)
        · rw [if_neg hb]
          rfl

/-- C4 (amended): for every Lexer configuration in which registered patterns
never match the empty string (every anchored match has positive length) and
every input text, `lex` terminates: fuel `length text + 1` already reaches
the sentinel or the invalid-character error.  (The unamended claim fails on
configurations with a pattern matching the empty string, see the
counterexample.) -/
theorem C4_lex_terminates_for_positive_matches :
    ∀ (ι : Type) (L : Lexer ι) (text : List Char),
    (∀ p ∈ L.tokens, ∀ t e, p.2 t = some e → 0 < e) →
    (L.lexFuel (text.length + 1) text).isSome = true :=
  fun _ L text hpos => lexFuel_pos_isSome L hpos _ text (Nat.lt_succ_self _)

/-- C4 witness: both patterns of `lexAB` (literals `a` and `aa`) only produce
positive-length matches, and lexing `"a aa"` indeed finishes within fuel
`5`. -/
theorem C4_witness :
    (lexAB.lexFuel (['a', ' ', 'a', 'a'].length + 1) ['a', ' ', 'a', 'a']).isSome
      = true :=
  C4_lex_terminates_for_positive_matches K2 lexAB ['a', ' ', 'a', 'a'] lexAB_pos

/-- Soundness of the loop transcript: a completed `exprLoop` run is a
`LedSteps` transcript, and it stops in a state whose lookahead no longer
binds tighter than `rbp`. -/
theorem exprLoop_ok_ledSteps {ι R : Type} (G : Grammar ι R) (rbp : Int) :
    ∀ (fuel : Nat) (left : R) (p : Parser ι) (v : R) (q : Parser ι),
    Parser.exprLoop G fuel rbp left p = .ok v q →
    LedSteps G rbp left p v q ∧ G.lbp q.current_token.kind ≤ rbp := by
  intro fuel
  induction fuel with
  | zero =>
    intro left p v q h
    simp only [Parser.exprLoop] at h
    split at h
    · exact absurd h (by simp)
    · rw [PRes.ok.injEq] at h
      obtain ⟨h1, h2⟩ := h
      subst h1
      subst h2
      next hge => exact ⟨LedSteps.done left p (not_lt.mp hge), not_lt.mp hge⟩
  | succ n ih =>
    intro left p v q h
    simp only [Parser.exprLoop] at h
    split at h
    · next hlt =>
        cases hc : Parser.consume none p with
        | ok t1 p1 =>
          simp only [hc] at h
          cases hl : G.led t1 left p1 with
          | ok left2 p2 =>
            simp only [hl] at h
            obtain ⟨hs, hb⟩ := ih left2 p2 v q h
            exact ⟨LedSteps.step left p t1 p1 left2 p2 v q hlt hc hl hs, hb⟩
          | err e pe => simp only [hl] at h; exact absurd h (by simp)
          | more => simp only [hl] at h; exact absurd h (by simp)
        | err e pe => simp only [hc] at h; exact absurd h (by simp)
        | more => simp only [hc] at h; exact absurd h (by simp)
    · next hge =>
        rw [PRes.ok.injEq] at h
        obtain ⟨h1, h2⟩ := h
        subst h1
        subst h2
        exact ⟨LedSteps.done left p (not_lt.mp hge), not_lt.mp hge⟩

/-- Completeness of the loop transcript: every `LedSteps` transcript is
realised by `exprLoop` for all sufficiently large fuel. -/
theorem ledSteps_exprLoop {ι R : Type} (G : Grammar ι R) (rbp : Int)
    {left : R} {p : Parser ι} {v : R} {q : Parser ι}
    (h : LedSteps G rbp left p v q) :
    ∃ n, ∀ fuel, n ≤ fuel → Parser.exprLoop G fuel rbp left p = .ok v q := by
  induction h with
  | done left p hle =>
    refine ⟨0, fun fuel _ => ?_⟩
    cases fuel with
    | zero => simp only [Parser.exprLoop]; rw [if_neg (not_lt.mpr hle)]
    | succ f => simp only [Parser.exprLoop]; rw [if_neg (not_lt.mpr hle)]
  | step left p t1 p1 left2 p2 v q hlt hc hl hsteps ih =>
    obtain ⟨n, hn⟩ := ih
    refine ⟨n + 1, fun fuel hf => ?_⟩
    obtain ⟨f, rfl⟩ : ∃ f, fuel = f + 1 := ⟨fuel - 1, by omega⟩
    simp only [Parser.exprLoop]
    rw [if_pos hlt]
    simp only [hc, hl]
    exact hn f (by omega)

/-- C2: `Parser.expression(rbp)` succeeds with value `v` in state `q` exactly
when it can consume one token `t0`, obtain the initial `left` from
`t0.nud`, and then run a `LedSteps` transcript from `left` to `v`: one
`led` step exactly while the lookahead's left binding power strictly exceeds
`rbp`, returning as soon as it no longer does (so the final lookahead's
binding power is at most `rbp`). -/
theorem C2_expression_characterisation :
    (∀ (ι R : Type) (G : Grammar ι R) (fuel : Nat) (rbp : Int) (p : Parser ι)
      (v : R) (q : Parser ι),
      Parser.expression G fuel rbp p = .ok v q →
      ∃ t0 p1 left p2, Parser.consume none p = .ok t0 p1 ∧
        G.nud t0 p1 = .ok left p2 ∧ LedSteps G rbp left p2 v q ∧
        G.lbp q.current_token.kind ≤ rbp) ∧
    (∀ (ι R : Type) (G : Grammar ι R) (rbp : Int) (p : Parser ι) (t0 : Tok ι)
      (p1 : Parser ι) (left : R) (p2 : Parser ι) (v : R) (q : Parser ι),
      Parser.consume none p = .ok t0 p1 → G.nud t0 p1 = .ok left p2 →
      LedSteps G rbp left p2 v q →
      ∃ fuel, Parser.expression G fuel rbp p = .ok v q) := by
  constructor
  · intro ι R G fuel rbp p v q h
    unfold Parser.expression at h
    cases hc : Parser.consume none p with
    | ok t0 p1 =>
      simp only [hc] at h
      cases hn : G.nud t0 p1 with
      | ok left p2 =>
        simp only [hn] at h
        obtain ⟨hs, hb⟩ := exprLoop_ok_ledSteps G rbp fuel left p2 v q h
        exact ⟨t0, p1, left, p2, rfl, hn, hs, hb⟩
      | err e pe => simp only [hn] at h; exact absurd h (by simp)
      | more => simp only [hn] at h; exact absurd h (by simp)
    | err e pe => simp only [hc] at h; exact absurd h (by simp)
    | more => simp only [hc] at h; exact absurd h (by simp)
  · intro ι R G rbp p t0 p1 left p2 v q hc hn hs
    obtain ⟨n, hloop⟩ := ledSteps_exprLoop G rbp hs
    refine ⟨n, ?_⟩
    unfold Parser.expression
    simp only [hc, hn]
    exact hloop n le_rfl

/-- C2 witness: on the token sequence `[lit '1', plus '+', lit '2', end]`,
`expression 0` returns `2` in state `Q2`; the characterisation exhibits the
initial consume of `lit '1'`, its `nud` value `1`, and the single `led` step
through `plus` (binding power 10 > 0) stopping at `lit '2'` (binding power
0 ≤ 0). -/
theorem C2_witness :
    ∃ t0 p1 left p2, Parser.consume none P2 = .ok t0 p1 ∧
      AG.nud t0 p1 = .ok left p2 ∧ LedSteps AG 0 left p2 2 Q2 ∧
      AG.lbp Q2.current_token.kind ≤ 0 :=
  C2_expression_characterisation.1 AK Int AG 2 0 P2 2 Q2 (by decide)
